import Mathlib

/-!
# Verification of `django_opensearch_dsl/documents.py`

A shallow embedding of the index-lifecycle and bulk-synchronization engine of
`django_opensearch_dsl.documents.Document`, together with theorems settling the
claims of the specification about it.

The embedding models the OpenSearch engine state (concrete indices and alias
pairs) explicitly and translates each relevant method of `Document`
(`get_index_name`, `get_all_indices`, `get_active_index`, `migrate`, `init`,
`get_indexing_queryset`, `bulk`, `parallel_bulk`, `_prepare_action`,
`_get_actions`, `update`) into a Lean function over that state.  The external
collaborators (the OpenSearch client, the relational store) are modelled at
their interface boundary: `indices.exists(name)` answers true for both concrete
indices and aliases (HTTP HEAD resolves aliases), `indices.get(base ++ "--*")`
returns the concrete indices whose name starts with `base ++ "--"`, the Python builtin sorted is modelled by a stable insertion sort under code-point lexicographic
order, and `opensearchpy.helpers.parallel_bulk` is modelled as a lazy stream
that performs an engine write per element only when the element is forced.
-/

namespace DjangoOpensearchDsl

/-- Code-point lexicographic comparison of character lists, the order the Python builtin
sorted uses on strings. -/
def charListLe : List Char → List Char → Bool
  | [], _ => true
  | _ :: _, [] => false
  | a :: as, b :: bs =>
    if a.val.toNat < b.val.toNat then true
    else if b.val.toNat < a.val.toNat then false
    else charListLe as bs

/-- Lexicographic order on strings (model of Python string comparison). -/
def strLe (a b : String) : Bool := charListLe a.data b.data

/-- Relation form of `strLe`, for use with `List.insertionSort`. -/
def strLeRel : String → String → Prop := fun a b => strLe a b = true

instance : DecidableRel strLeRel := fun a b =>
  inferInstanceAs (Decidable (strLe a b = true))

theorem charListLe_total : ∀ a b : List Char, charListLe a b = true ∨ charListLe b a = true := by
  intro a
  induction a with
  | nil => intro b; left; rfl
  | cons x xs ih =>
    intro b
    cases b with
    | nil => right; rfl
    | cons y ys =>
      by_cases h1 : x.val.toNat < y.val.toNat
      · left; simp [charListLe, h1]
      · by_cases h2 : y.val.toNat < x.val.toNat
        · right; simp [charListLe, h2]
        · rcases ih ys with h | h
          · left; simp [charListLe, h1, h2, h]
          · right; simp [charListLe, h1, h2, h]

theorem charListLe_trans :
    ∀ a b c : List Char, charListLe a b = true → charListLe b c = true →
      charListLe a c = true := by
  intro a
  induction a with
  | nil => intro b c _ _; rfl
  | cons x xs ih =>
    intro b c hab hbc
    cases b with
    | nil => simp [charListLe] at hab
    | cons y ys =>
      cases c with
      | nil => simp [charListLe] at hbc
      | cons z zs =>
        by_cases h1 : x.val.toNat < y.val.toNat
        · by_cases h2 : y.val.toNat < z.val.toNat
          · simp [charListLe, show x.val.toNat < z.val.toNat from by omega]
          · by_cases h3 : z.val.toNat < y.val.toNat
            · simp [charListLe, h2, h3] at hbc
            · simp [charListLe, show x.val.toNat < z.val.toNat from by omega]
        · by_cases h4 : y.val.toNat < x.val.toNat
          · simp [charListLe, h1, h4] at hab
          · simp only [charListLe, if_neg h1, if_neg h4] at hab
            by_cases h2 : y.val.toNat < z.val.toNat
            · simp [charListLe, show x.val.toNat < z.val.toNat from by omega]
            · by_cases h3 : z.val.toNat < y.val.toNat
              · simp [charListLe, h2, h3] at hbc
              · simp only [charListLe, if_neg h2, if_neg h3] at hbc
                have hxz : ¬ x.val.toNat < z.val.toNat := by omega
                have hzx : ¬ z.val.toNat < x.val.toNat := by omega
                simp only [charListLe, if_neg hxz, if_neg hzx]
                exact ih ys zs hab hbc

instance : IsTotal String strLeRel :=
  ⟨fun a b => charListLe_total a.data b.data⟩

instance : IsTrans String strLeRel :=
  ⟨fun a b c => charListLe_trans a.data b.data c.data⟩

/-- One alias action of an `indices.update_aliases` batch
(`{"add": {"index": i, "alias": a}}` or `{"remove": {"index": i, "alias": a}}`). -/
inductive AliasAction where
  | add (index aliasName : String)
  | remove (index aliasName : String)
deriving DecidableEq, Repr

/-- Test for the remove constructor. -/
def AliasAction.isRemove : AliasAction → Bool
  | .remove _ _ => true
  | .add _ _ => false

/-- Test for the add constructor. -/
def AliasAction.isAdd : AliasAction → Bool
  | .add _ _ => true
  | .remove _ _ => false

/-- The observable OpenSearch engine state: the names of the concrete indices
that exist, and the `(alias, index)` pairs currently set. -/
structure OSState where
  indices : List String
  aliases : List (String × String)
deriving DecidableEq, Repr

/-- Model of `indices.exists(name)` / `Index.exists()`: an HTTP `HEAD` on a
name answers true when the name is a concrete index or an alias. -/
def existsName (s : OSState) (name : String) : Bool :=
  decide (name ∈ s.indices ∨ ∃ p ∈ s.aliases, p.1 = name)

/-- Model of the index creation performed by the upstream
`Document.init(index=...)` (an `Index.save()` call): create the concrete index if absent (pushing
mappings/settings, which the state does not track), a no-op on the index set
when it already exists. -/
def createIndex (s : OSState) (name : String) : OSState :=
  if name ∈ s.indices then s else { s with indices := s.indices ++ [name] }

/-- Model of `Index.delete()`: the concrete index disappears together with any
alias pair pointing at it. -/
def deleteIndex (s : OSState) (name : String) : OSState :=
  { indices := s.indices.filter (fun n => n ≠ name),
    aliases := s.aliases.filter (fun p => p.2 ≠ name) }

/-- One action of an `indices.update_aliases` batch applied to the state. -/
def applyAliasAction (s : OSState) : AliasAction → OSState
  | .add index al =>
      if (al, index) ∈ s.aliases then s
      else { s with aliases := s.aliases ++ [(al, index)] }
  | .remove index al =>
      { s with aliases := s.aliases.filter (fun p => p ≠ (al, index)) }

/-- Model of `indices.update_aliases(body={"actions": acts})`: the actions of
the batch applied in order (the engine applies the whole batch atomically;
in this sequential model atomicity is implicit). -/
def updateAliases (s : OSState) (acts : List AliasAction) : OSState :=
  acts.foldl applyAliasAction s

/-- Python truthiness of an optional string (`if suffix:`): `None` and the
empty string are falsy. -/
def pyTruthy : Option String → Bool
  | none => false
  | some s => s ≠ ""

/-- Python `opt or default` on an optional string. -/
def pyOrStr : Option String → String → String
  | none, d => d
  | some s, d => if s = "" then d else s

/-- Model of `Document.get_index_name(suffix)`: the base name `cls._index._name`,
suffixed with `VERSION_NAME_SEPARATOR = "--"` and the suffix when the suffix
is truthy. -/
def get_index_name (base : String) (suffix : Option String) : String :=
  match suffix with
  | some s => if s = "" then base else base ++ "--" ++ s
  | none => base

/-- Model of `Document.get_all_indices()`: the concrete indices matching the wildcard
pattern `base ++ "--*"` (that is, whose name starts with `base ++ "--"`),
sorted by name as the Python builtin sorted does. -/
def get_all_indices (s : OSState) (base : String) : List String :=
  List.insertionSort strLeRel
    (s.indices.filter (fun n => (base ++ "--").data.isPrefixOf n.data))

/-- Model of `Document.get_active_index()`: the first listed generation that currently
holds the alias `base` (`exists_alias(name=base)`), if any. -/
def get_active_index (s : OSState) (base : String) : Option String :=
  (get_all_indices s base).find? (fun g => decide ((base, g) ∈ s.aliases))

/-- The generations of `base` that currently hold the alias `base`. -/
def aliasHolders (s : OSState) (base : String) : List String :=
  (get_all_indices s base).filter (fun g => decide ((base, g) ∈ s.aliases))

/-- The trace of one `Document.migrate(suffix)` call: the alias-action batch it
submits, whether it deleted a stale index named `base`, and the final engine
state. -/
structure MigrateRun where
  actionsOnAliases : List AliasAction
  deletedBase : Bool
  final : OSState
deriving DecidableEq, Repr

/-- Model of `Document.migrate(suffix)`: build the alias-action batch (an add of the
alias to `get_index_name(suffix)`, preceded by a remove of the currently
active index when one exists), delete the index named `base` when the batch
has a single action and that name exists, then submit the batch. -/
def migrate (s : OSState) (base suffix : String) : MigrateRun :=
  let index_name := get_index_name base (some suffix)
  let withAdd : List AliasAction := [.add index_name base]
  let acts : List AliasAction :=
    match get_active_index s base with
    | some active => .remove active base :: withAdd
    | none => withAdd
  let doDelete : Bool := acts.length = 1 && existsName s base
  let s1 := if doDelete then deleteIndex s base else s
  { actionsOnAliases := acts, deletedBase := doDelete, final := updateAliases s1 acts }

/-- Model of `Document.init(suffix)`: resolve the suffix (`suffix or now`, where `now`
stands for the formatted timestamp `datetime.now().strftime("%Y%m%d%H%M%S%f")`,
a non-empty string), create the concrete index `get_index_name(suffix)`, then
call `migrate` only when the base name does not exist (neither as an index nor
as an alias). -/
def init (s : OSState) (base : String) (suffix : Option String) (now : String) : OSState :=
  let sfx := pyOrStr suffix now
  let index_name := get_index_name base (some sfx)
  let s1 := createIndex s index_name
  if existsName s1 base then s1 else (migrate s1 base sfx).final

/-- The `post_index` signal payload: the initiating document type (the
`sender=self.__class__` argument), the action list, and the response. -/
structure PostIndexSignal (A : Type) where
  sender : String
  actions : List A
  response : Nat × List String
deriving DecidableEq, Repr

/-- Outcome of one bulk submission: the value returned to the caller, the
`post_index` signals emitted, and the actions that became engine-visible
writes through the wire client. -/
structure BulkExecResult (A : Type) where
  response : Nat × List String
  signals : List (PostIndexSignal A)
  engineWrites : List A
deriving DecidableEq, Repr

/-- Model of the lazy generator returned by `opensearchpy.helpers.parallel_bulk`:
actions still pending in the generator, and actions already submitted to the
engine.  Nothing is submitted until the generator is iterated. -/
structure LazyBulk (A : Type) where
  pending : List A
  submitted : List A
deriving DecidableEq, Repr

/-- Model of `opensearchpy.helpers.parallel_bulk(client, actions, ...)`: returns the
lazy generator with every action still pending — if the caller never iterates
it, the helper silently no-ops. -/
def osParallelBulk (actions : List A) : LazyBulk A :=
  { pending := actions, submitted := [] }

/-- Force the pending elements of a lazy bulk generator one by one, each
forced element becoming an engine-visible write. -/
def drainPending : List A → List A → LazyBulk A
  | [], sub => { pending := [], submitted := sub }
  | a :: rest, sub => drainPending rest (sub ++ [a])

/-- Model of `deque(bulk_actions, maxlen=0)`: iterate the lazy generator to
exhaustion. -/
def LazyBulk.drain (l : LazyBulk A) : LazyBulk A :=
  drainPending l.pending l.submitted

/-- Model of `Document.bulk(actions)`: one sequential `opensearchpy.helpers.bulk` call
(the wire client `engine` maps the submitted action list to its structured
response), followed by exactly one `post_index` signal carrying the sender,
the actions, and the response. -/
def bulkRun (docCls : String) (engine : List A → Nat × List String)
    (actions : List A) : BulkExecResult A :=
  let response := engine actions
  { response := response,
    signals := [{ sender := docCls, actions := actions, response := response }],
    engineWrites := actions }

/-- Model of `Document.parallel_bulk(actions)`: obtain the lazy `parallel_bulk`
generator, drain it with `deque(..., maxlen=0)`, and return the synthetic
result `(1, [])`.  No `post_index` signal is sent on this path. -/
def parallelBulkRun (docCls : String) (actions : List A) : BulkExecResult A :=
  let bulk_actions := osParallelBulk actions
  let drained := bulk_actions.drain
  { response := (1, []),
    signals := [],
    engineWrites := drained.submitted }

/-- Model of `Document._bulk(..., parallel=...)`: dispatch between the sequential and
the parallel strategy. -/
def bulkDispatch (docCls : String) (engine : List A → Nat × List String)
    (actions : List A) (parallel : Bool) : BulkExecResult A :=
  if parallel then parallelBulkRun docCls actions else bulkRun docCls engine actions

/-- A relational record: a primary key and an opaque payload. -/
structure DbRec where
  pk : Nat
  payload : Nat
deriving DecidableEq, Repr

/-- Ordering of records by primary key, for `order_by("pk")`. -/
def pkLeRel : DbRec → DbRec → Prop := fun a b => a.pk ≤ b.pk

instance : DecidableRel pkLeRel := fun a b =>
  inferInstanceAs (Decidable (a.pk ≤ b.pk))

instance : IsTotal DbRec pkLeRel := ⟨fun a b => Nat.le_total a.pk b.pk⟩

instance : IsTrans DbRec pkLeRel := ⟨fun _ _ _ => Nat.le_trans⟩

/-- Model of the order_by pk call on the relational store: a stable sort of the
record set by primary key. -/
def order_by_pk (l : List DbRec) : List DbRec :=
  List.insertionSort pkLeRel l

/-- The slice loop of `Document.get_indexing_queryset`: starting at offset `i`
over the ordered queryset `qs`, pull the page `qs[i : i + P]`, then advance
`i` to `min (i + P) count` and repeat while records remain.  (In the source
the loop guard is `done < count`; since `done = min (i + P) count` holds after
every iteration and both start at `0`, the guard is equivalent to
`i < count`.)  The source loop terminates only for a positive page size, which
is the guard under which this function recurses. -/
def indexing_chunks (qs : List DbRec) (P i : Nat) : List (List DbRec) :=
  if h : i < qs.length ∧ 0 < P then
    ((qs.drop i).take P) :: indexing_chunks qs P (min (i + P) qs.length)
  else []
termination_by qs.length - i
decreasing_by
  rcases h with ⟨h1, h2⟩
  omega

/-- Model of `Document.get_indexing_queryset` (with no slice applied by the caller):
order the record set by primary key, then yield it page by page; the result is
the full yielded sequence. -/
def get_indexing_queryset (records : List DbRec) (P : Nat) : List DbRec :=
  (indexing_chunks (order_by_pk records) P 0).flatten

/-- The number of page-bounded pulls `get_indexing_queryset` performs. -/
def indexing_pulls (records : List DbRec) (P : Nat) : Nat :=
  (indexing_chunks (order_by_pk records) P 0).length

/-- The state of one `Document` instance relevant to action building: the
index name `cls._index._name`, the compiled `prepare`, the `generate_id` hook
(default: the primary key of the record), the overridable `should_index_object`
predicate, and the resolved `auto_refresh` default. `O` is the model-record
type, `M` the extracted field mapping type. -/
structure DocClass (O M : Type) where
  clsName : String
  index_name : String
  prepare : O → M
  generate_id : O → Nat
  should_index_object : O → Bool
  auto_refresh : Bool

/-- One bulk action descriptor as built by `Document._prepare_action`:
`_op_type`, `_index`, `_id`, and the payload entry, whose key is `"_source"`
unless the action is `"update"` (then `"doc"`) and whose value is the prepared
mapping unless the action is `"delete"` (then `None`). -/
structure BulkActionDescr (M : Type) where
  op_type : String
  target_index : String
  id : Nat
  payload_key : String
  payload : Option M
deriving DecidableEq, Repr

/-- Model of `Document._prepare_action(object_instance, action, index_name)`. -/
def prepare_action (d : DocClass O M) (obj : O) (action : String)
    (index_name : Option String) : BulkActionDescr M :=
  { op_type := action,
    target_index := pyOrStr index_name d.index_name,
    id := d.generate_id obj,
    payload_key := if action ≠ "update" then "_source" else "doc",
    payload := if action ≠ "delete" then some (d.prepare obj) else none }

/-- Model of `Document._get_actions(object_list, action, index_name=...)`: one
descriptor per record passing `action == "delete" or should_index_object`. -/
def get_actions (d : DocClass O M) (object_list : List O) (action : String)
    (index_name : Option String) : List (BulkActionDescr M) :=
  (object_list.filter (fun o => action = "delete" || d.should_index_object o)).map
    (fun o => prepare_action d o action index_name)

/-- The bulk submission performed by one `Document.update` call: the resolved
refresh policy and the outcome of `_bulk` on the built action stream. -/
structure UpdateRun (M : Type) where
  refresh : Bool
  exec : BulkExecResult (BulkActionDescr M)
deriving DecidableEq, Repr

/-- Model of `Document.update(thing, action, index_suffix=..., refresh=..., ...)`:
resolve the refresh default, compute the target index name when the suffix is
truthy, wrap a bare model instance into a one-element list, and drive the
resulting action stream through `_bulk`. -/
def Document.update (d : DocClass O M)
    (engine : List (BulkActionDescr M) → Nat × List String)
    (thing : O ⊕ List O) (action : String) (index_suffix : Option String)
    (refresh : Option Bool) (parallel : Bool) : UpdateRun M :=
  let refreshv := refresh.getD d.auto_refresh
  let index_name :=
    if pyTruthy index_suffix then some (get_index_name d.index_name index_suffix)
    else none
  let object_list : List O :=
    match thing with
    | Sum.inl m => [m]
    | Sum.inr l => l
  { refresh := refreshv,
    exec := bulkDispatch d.clsName engine (get_actions d object_list action index_name) parallel }

/-- A sample document state over `Nat` records and `Nat` mappings, used to
instantiate universally quantified theorems at a concrete input. -/
def sampleDoc : DocClass Nat Nat :=
  { clsName := "ExampleDocument",
    index_name := "idx",
    prepare := fun o => o + 100,
    generate_id := fun o => o,
    should_index_object := fun o => o % 2 = 0,
    auto_refresh := true }

/-! ## Helper lemmas on the naming scheme -/

theorem data_genName (B S : String) :
    (B ++ "--" ++ S).data = (B.data ++ ['-', '-']) ++ S.data := by
  rw [String.data_append, String.data_append]

theorem genName_ne_base (B S : String) : B ++ "--" ++ S ≠ B := by
  intro h
  have h2 := congrArg (fun t : String => t.data.length) h
  simp only [data_genName, List.length_append, List.length_cons, List.length_nil] at h2
  omega

theorem genName_inj (B S1 S2 : String) (h : B ++ "--" ++ S1 = B ++ "--" ++ S2) :
    S1 = S2 := by
  have h2 := congrArg String.data h
  simp only [data_genName] at h2
  exact String.ext (List.append_cancel_left h2)

theorem isPrefixOf_genName (B S : String) :
    (B ++ "--").data.isPrefixOf (B ++ "--" ++ S).data = true := by
  rw [List.isPrefixOf_iff_prefix, String.data_append]
  exact List.prefix_append _ _

theorem get_index_name_of_ne (B S : String) (h : S ≠ "") :
    get_index_name B (some S) = B ++ "--" ++ S := by
  simp [get_index_name, h]

theorem drainPending_spec (p : List A) :
    ∀ sub, drainPending p sub = { pending := [], submitted := sub ++ p } := by
  induction p with
  | nil => intro sub; simp [drainPending]
  | cons a rest ih =>
    intro sub
    simp [drainPending, ih]

/-! ## Claim theorems -/

/-- C4: for every finite sequence of K action descriptors, `parallel_bulk`
fully drains the lazy action sequence before returning — the drained generator
has nothing pending and exactly the K actions have become engine-visible
writes — and its return value is the synthetic result `(1, [])` regardless of
the actions. -/
theorem parallel_bulk_drains_and_synthetic_result {A : Type} (docCls : String)
    (actions : List A) :
    (parallelBulkRun docCls actions).engineWrites = actions ∧
    ((osParallelBulk actions).drain).pending = [] ∧
    (parallelBulkRun docCls actions).response = (1, []) := by
  refine ⟨?_, ?_, rfl⟩
  · simp [parallelBulkRun, osParallelBulk, LazyBulk.drain, drainPending_spec]
  · simp [osParallelBulk, LazyBulk.drain, drainPending_spec]

/-- C5 (amended): the sequential strategy `bulk` raises the `post_index`
signal exactly once, carrying the initiating document type, the action list
and the response, while the parallel strategy `parallel_bulk` does not raise
it at all. -/
theorem post_index_signal_per_strategy {A : Type} (docCls : String)
    (engine : List A → Nat × List String) (actions : List A) :
    (bulkRun docCls engine actions).signals
      = [{ sender := docCls, actions := actions, response := engine actions }] ∧
    (parallelBulkRun docCls actions).signals = [] :=
  ⟨rfl, rfl⟩

/-- C5 (counterexample): after a parallel bulk submission of one action the
`post_index` signal is not raised exactly once — it is not raised at all —
refuting the claim that both strategies raise it once. -/
theorem post_index_not_sent_parallel_cex :
    ¬ ((parallelBulkRun "ExampleDocument" ([0] : List Nat)).signals.length = 1) := by
  decide

/-- C7: the descriptor built by `_prepare_action` omits the source payload for
a delete action, wraps the extracted mapping as a partial-document patch under
the doc key for an update action, and attaches the full extracted mapping as
the source document for every other action. -/
theorem prepare_action_payload_spec {O M : Type} (d : DocClass O M) (obj : O)
    (action : String) (index_name : Option String) :
    (action = "delete" → (prepare_action d obj action index_name).payload = none) ∧
    (action = "update" →
      (prepare_action d obj action index_name).payload_key = "doc" ∧
      (prepare_action d obj action index_name).payload = some (d.prepare obj)) ∧
    (action ≠ "delete" → action ≠ "update" →
      (prepare_action d obj action index_name).payload_key = "_source" ∧
      (prepare_action d obj action index_name).payload = some (d.prepare obj)) := by
  refine ⟨?_, ?_, ?_⟩
  · intro h
    subst h
    simp [prepare_action]
  · intro h
    subst h
    refine ⟨by simp [prepare_action], ?_⟩
    simp only [prepare_action]
    rw [if_pos (by decide)]
  · intro h1 h2
    exact ⟨by simp [prepare_action, h2], by simp [prepare_action, h1]⟩

/-- C7 (witness): the three cases of `prepare_action_payload_spec` evaluated
at a concrete document and record. -/
theorem prepare_action_payload_spec_witness :
    (prepare_action sampleDoc 5 "delete" none).payload = none ∧
    ((prepare_action sampleDoc 5 "update" none).payload_key = "doc" ∧
      (prepare_action sampleDoc 5 "update" none).payload = some (sampleDoc.prepare 5)) ∧
    ((prepare_action sampleDoc 5 "index" none).payload_key = "_source" ∧
      (prepare_action sampleDoc 5 "index" none).payload = some (sampleDoc.prepare 5)) :=
  ⟨(prepare_action_payload_spec sampleDoc 5 "delete" none).1 rfl,
   (prepare_action_payload_spec sampleDoc 5 "update" none).2.1 rfl,
   (prepare_action_payload_spec sampleDoc 5 "index" none).2.2 (by decide) (by decide)⟩

/-- C8: in the action stream built by `_get_actions`, a delete action stream
contains one descriptor per record regardless of the predicate, while any
other action stream contains descriptors for exactly the records satisfying
`should_index_object`. -/
theorem get_actions_delete_bypass_spec {O M : Type} (d : DocClass O M)
    (object_list : List O) (index_name : Option String) :
    (get_actions d object_list "delete" index_name
        = object_list.map (fun o => prepare_action d o "delete" index_name)) ∧
    (∀ action : String, action ≠ "delete" →
      get_actions d object_list action index_name
        = (object_list.filter (fun o => d.should_index_object o)).map
            (fun o => prepare_action d o action index_name)) := by
  constructor
  · simp [get_actions]
  · intro action h
    simp [get_actions, h]

/-- C8 (witness): `get_actions_delete_bypass_spec` evaluated at a concrete
document and record list, for the delete action and for the index action. -/
theorem get_actions_delete_bypass_spec_witness :
    (get_actions sampleDoc [1, 2] "delete" none
        = [1, 2].map (fun o => prepare_action sampleDoc o "delete" none)) ∧
    ("index" : String) ≠ "delete" ∧
    (get_actions sampleDoc [1, 2] "index" none
        = ([1, 2].filter (fun o => sampleDoc.should_index_object o)).map
            (fun o => prepare_action sampleDoc o "index" none)) :=
  ⟨(get_actions_delete_bypass_spec sampleDoc [1, 2] none).1,
   by decide,
   (get_actions_delete_bypass_spec sampleDoc [1, 2] none).2 "index" (by decide)⟩

/-- C10: calling `update` with a single model instance produces exactly the
same bulk submission (same built actions, same refresh policy, same execution
outcome) as calling it with the one-element list of that instance. -/
theorem update_model_singleton_equiv {O M : Type} (d : DocClass O M)
    (engine : List (BulkActionDescr M) → Nat × List String) (m : O)
    (action : String) (index_suffix : Option String) (refresh : Option Bool)
    (parallel : Bool) :
    Document.update d engine (Sum.inl m) action index_suffix refresh parallel
      = Document.update d engine (Sum.inr [m]) action index_suffix refresh parallel :=
  rfl

/-- C9 (counterexample): for the empty suffix, `get_index_name` does not
return the concatenation of the base, the separator and the suffix — the
Python truthiness test `if suffix:` drops the separator — so the claim does
not hold for every suffix. -/
theorem get_index_name_empty_suffix_cex :
    ¬ (get_index_name "idx" (some "") = "idx" ++ "--" ++ "") := by
  decide

/-- C9 (amended): for every base B and every non-empty suffix S,
`get_index_name` returns the concatenation `B ++ "--" ++ S`, and
`get_all_indices` returns only indices whose names match the prefix
`B ++ "--"`, sorted by name. -/
theorem naming_and_listing_spec (B S : String) (s : OSState) (h : S ≠ "") :
    get_index_name B (some S) = B ++ "--" ++ S ∧
    (∀ n ∈ get_all_indices s B, (B ++ "--").data.isPrefixOf n.data = true) ∧
    (get_all_indices s B).Sorted strLeRel := by
  refine ⟨get_index_name_of_ne B S h, ?_, List.sorted_insertionSort strLeRel _⟩
  intro n hn
  have hmem : n ∈ s.indices.filter (fun n => (B ++ "--").data.isPrefixOf n.data) :=
    ((List.perm_insertionSort strLeRel _).mem_iff).mp hn
  exact (List.mem_filter.mp hmem).2

/-- C9 (witness): `naming_and_listing_spec` at a concrete base, suffix and
engine state. -/
theorem naming_and_listing_spec_witness :
    ("a" : String) ≠ "" ∧
    (get_index_name "idx" (some "a") = "idx" ++ "--" ++ "a" ∧
      (∀ n ∈ get_all_indices ⟨["idx--b", "other", "idx--a"], []⟩ "idx",
        ("idx" ++ "--").data.isPrefixOf n.data = true) ∧
      (get_all_indices ⟨["idx--b", "other", "idx--a"], []⟩ "idx").Sorted strLeRel) :=
  ⟨by decide, naming_and_listing_spec "idx" "a" ⟨["idx--b", "other", "idx--a"], []⟩ (by decide)⟩

/-- C3 (counterexample): when the target generation itself already holds the
alias, `migrate` still prepends a remove action even though no generation
other than the target holds the alias, refuting the claimed biconditional
(remove present iff a different generation holds the alias). -/
theorem migrate_remove_iff_any_holder_cex :
    ¬ (((migrate ⟨["idx--a"], [("idx", "idx--a")]⟩ "idx" "a").actionsOnAliases.any
          AliasAction.isRemove = true) ↔
        ∃ g ∈ get_all_indices ⟨["idx--a"], [("idx", "idx--a")]⟩ "idx",
          g ≠ get_index_name "idx" (some "a") ∧
          ("idx", g) ∈ (⟨["idx--a"], [("idx", "idx--a")]⟩ : OSState).aliases) := by
  decide

/-- C3 (amended): the alias-action batch submitted by `migrate` always
contains the action adding the alias B to the concrete index named from
(B, S), and it is prepended with a remove action if and only if some
generation — possibly the target itself — currently holds the alias B. -/
theorem migrate_actions_add_and_remove_iff_holder (s : OSState) (B S : String) :
    AliasAction.add (get_index_name B (some S)) B ∈ (migrate s B S).actionsOnAliases ∧
    ((∃ g ∈ get_all_indices s B, (B, g) ∈ s.aliases) ↔
      (∃ i, (migrate s B S).actionsOnAliases.head? = some (AliasAction.remove i B))) := by
  cases hfind : get_active_index s B with
  | none =>
    constructor
    · simp [migrate, hfind]
    · constructor
      · rintro ⟨g, hg, hmem⟩
        exfalso
        have hnone := List.find?_eq_none.mp hfind g hg
        simp only [decide_eq_true_eq] at hnone
        exact hnone hmem
      · rintro ⟨i, hi⟩
        simp [migrate, hfind] at hi
  | some active =>
    constructor
    · simp [migrate, hfind]
    · constructor
      · intro _
        exact ⟨active, by simp [migrate, hfind]⟩
      · intro _
        refine ⟨active, List.mem_of_find?_eq_some hfind, ?_⟩
        have hp := List.find?_some hfind
        simpa using hp

/-- C2 (counterexample): with no generation holding the alias and a bare
index named like the base existing, the alias-action batch submitted by
`migrate` contains one add action and no remove action — not exactly one
remove and one add as claimed. -/
theorem migrate_bare_collision_cex :
    ¬ (((migrate ⟨["idx"], []⟩ "idx" "a").actionsOnAliases.countP
          AliasAction.isRemove = 1) ∧
       ((migrate ⟨["idx"], []⟩ "idx" "a").actionsOnAliases.countP
          AliasAction.isAdd = 1)) := by
  decide

/-- C2 (amended): when no generation currently holds the alias B and an index
physically named B already exists, the alias-action batch submitted by
`migrate` consists of exactly one action — the add of the alias to the target
— with no remove action, and the stale bare-named index B is deleted (before
the alias batch is applied, by construction of `MigrateRun.final`): in the
final state B is no longer a concrete index and the alias B points at the
target generation. -/
theorem migrate_bare_collision_spec (s : OSState) (B S : String)
    (hno : ∀ g ∈ get_all_indices s B, (B, g) ∉ s.aliases)
    (hbare : B ∈ s.indices) :
    (migrate s B S).actionsOnAliases = [AliasAction.add (get_index_name B (some S)) B] ∧
    (migrate s B S).deletedBase = true ∧
    B ∉ (migrate s B S).final.indices ∧
    (B, get_index_name B (some S)) ∈ (migrate s B S).final.aliases := by
  have hfind : get_active_index s B = none := by
    apply List.find?_eq_none.mpr
    intro g hg
    simpa using hno g hg
  have hex : existsName s B = true := by
    simp only [existsName, decide_eq_true_eq]
    exact Or.inl hbare
  have hacts : (migrate s B S).actionsOnAliases
      = [AliasAction.add (get_index_name B (some S)) B] := by
    simp [migrate, hfind]
  have hdel : (migrate s B S).deletedBase = true := by
    simp [migrate, hfind, hex]
  have hfinal : (migrate s B S).final
      = updateAliases (deleteIndex s B) [AliasAction.add (get_index_name B (some S)) B] := by
    simp [migrate, hfind, hex]
  refine ⟨hacts, hdel, ?_, ?_⟩
  · rw [hfinal]
    simp only [updateAliases, List.foldl_cons, List.foldl_nil, applyAliasAction]
    intro hmem
    have hidx : B ∈ (deleteIndex s B).indices := by
      by_cases hc : (B, get_index_name B (some S)) ∈ (deleteIndex s B).aliases
      · simpa [if_pos hc] using hmem
      · simpa [if_neg hc] using hmem
    simp [deleteIndex, List.mem_filter] at hidx
  · rw [hfinal]
    simp only [updateAliases, List.foldl_cons, List.foldl_nil, applyAliasAction]
    by_cases hc : (B, get_index_name B (some S)) ∈ (deleteIndex s B).aliases
    · simpa [if_pos hc] using hc
    · simp [if_neg hc]

/-- C2 (witness): `migrate_bare_collision_spec` at a concrete state in which
the bare index "idx" exists and nothing holds the alias. -/
theorem migrate_bare_collision_spec_witness :
    (∀ g ∈ get_all_indices ⟨["idx"], []⟩ "idx",
        ("idx", g) ∉ (⟨["idx"], []⟩ : OSState).aliases) ∧
    ("idx" : String) ∈ (⟨["idx"], []⟩ : OSState).indices ∧
    ((migrate ⟨["idx"], []⟩ "idx" "a").actionsOnAliases
        = [AliasAction.add (get_index_name "idx" (some "a")) "idx"] ∧
      (migrate ⟨["idx"], []⟩ "idx" "a").deletedBase = true ∧
      ("idx" : String) ∉ (migrate ⟨["idx"], []⟩ "idx" "a").final.indices ∧
      ("idx", get_index_name "idx" (some "a"))
        ∈ (migrate ⟨["idx"], []⟩ "idx" "a").final.aliases) :=
  ⟨by decide, by decide,
   migrate_bare_collision_spec ⟨["idx"], []⟩ "idx" "a" (by decide) (by decide)⟩

theorem indexing_chunks_flatten (qs : List DbRec) (P : Nat) (hP : 0 < P) :
    ∀ i, (indexing_chunks qs P i).flatten = qs.drop i := by
  have key : ∀ k i, qs.length - i ≤ k → (indexing_chunks qs P i).flatten = qs.drop i := by
    intro k
    induction k with
    | zero =>
      intro i hi
      rw [indexing_chunks, dif_neg (by omega)]
      rw [List.drop_eq_nil_of_le (by omega)]
      rfl
    | succ k ih =>
      intro i hi
      by_cases h : i < qs.length
      · rw [indexing_chunks, dif_pos ⟨h, hP⟩, List.flatten_cons,
          ih (min (i + P) qs.length) (by omega)]
        have hdrop : qs.drop (min (i + P) qs.length) = qs.drop (i + P) := by
          rcases Nat.le_total (i + P) qs.length with hle | hle
          · rw [Nat.min_eq_left hle]
          · rw [Nat.min_eq_right hle, List.drop_length,
              List.drop_eq_nil_of_le hle]
        rw [hdrop, ← List.drop_drop, List.take_append_drop]
      · rw [indexing_chunks, dif_neg (by omega)]
        rw [List.drop_eq_nil_of_le (by omega)]
        rfl
  intro i
  exact key (qs.length - i) i (Nat.le_refl _)

theorem indexing_chunks_length (qs : List DbRec) (P : Nat) (hP : 0 < P) :
    ∀ i, (indexing_chunks qs P i).length = (qs.length - i + P - 1) / P := by
  have key : ∀ k i, qs.length - i ≤ k →
      (indexing_chunks qs P i).length = (qs.length - i + P - 1) / P := by
    intro k
    induction k with
    | zero =>
      intro i hi
      rw [indexing_chunks, dif_neg (by omega)]
      have h0 : qs.length - i = 0 := by omega
      rw [h0]
      have hz : (0 + P - 1) / P = 0 := Nat.div_eq_of_lt (by omega)
      simpa using hz.symm
    | succ k ih =>
      intro i hi
      by_cases h : i < qs.length
      · rw [indexing_chunks, dif_pos ⟨h, hP⟩, List.length_cons,
          ih (min (i + P) qs.length) (by omega)]
        rcases Nat.le_total (i + P) qs.length with hle | hle
        · rw [Nat.min_eq_left hle]
          have e1 : qs.length - i + P - 1 = (qs.length - (i + P) + P - 1) + P := by omega
          rw [e1, Nat.add_div_right _ hP]
        · rw [Nat.min_eq_right hle]
          have e1 : qs.length - qs.length = 0 := by omega
          rw [e1]
          have e2 : (0 + P - 1) / P = 0 := Nat.div_eq_of_lt (by omega)
          rw [e2]
          have e3 : (qs.length - i + P - 1) / P = 1 := by
            apply Nat.div_eq_of_lt_le
            · omega
            · omega
          omega
      · rw [indexing_chunks, dif_neg (by omega)]
        have h0 : qs.length - i = 0 := by omega
        rw [h0]
        have hz : (0 + P - 1) / P = 0 := Nat.div_eq_of_lt (by omega)
        simpa using hz.symm
  intro i
  exact key (qs.length - i) i (Nat.le_refl _)

/-- C6: for every record set of N records and every page size P ≥ 1,
`get_indexing_queryset` yields exactly N records, each exactly once (the
yielded sequence is a permutation of the record set), in primary-key order,
pulled in exactly ⌈N / P⌉ page-bounded slices (the value `(N + P - 1) / P` in
natural division). -/
theorem get_indexing_queryset_spec (records : List DbRec) (P : Nat) (hP : 0 < P) :
    (get_indexing_queryset records P).Perm records ∧
    (get_indexing_queryset records P).Sorted pkLeRel ∧
    indexing_pulls records P = (records.length + P - 1) / P := by
  have hflat : get_indexing_queryset records P = order_by_pk records := by
    unfold get_indexing_queryset
    rw [indexing_chunks_flatten _ _ hP 0, List.drop_zero]
  have hlen : (order_by_pk records).length = records.length :=
    (List.perm_insertionSort pkLeRel records).length_eq
  refine ⟨?_, ?_, ?_⟩
  · rw [hflat]
    exact List.perm_insertionSort pkLeRel records
  · rw [hflat]
    exact List.sorted_insertionSort pkLeRel records
  · unfold indexing_pulls
    rw [indexing_chunks_length _ _ hP 0, Nat.sub_zero, hlen]

/-- C6 (witness): `get_indexing_queryset_spec` at a concrete record set of
three records and page size two. -/
theorem get_indexing_queryset_spec_witness :
    0 < 2 ∧
    ((get_indexing_queryset [⟨2, 10⟩, ⟨1, 11⟩, ⟨3, 12⟩] 2).Perm
        [⟨2, 10⟩, ⟨1, 11⟩, ⟨3, 12⟩] ∧
      (get_indexing_queryset [⟨2, 10⟩, ⟨1, 11⟩, ⟨3, 12⟩] 2).Sorted pkLeRel ∧
      indexing_pulls [⟨2, 10⟩, ⟨1, 11⟩, ⟨3, 12⟩] 2
        = (([⟨2, 10⟩, ⟨1, 11⟩, ⟨3, 12⟩] : List DbRec).length + 2 - 1) / 2) :=
  ⟨by decide, get_indexing_queryset_spec [⟨2, 10⟩, ⟨1, 11⟩, ⟨3, 12⟩] 2 (by decide)⟩

/-- C1 (counterexample): starting from an empty engine, after `init` with the
defaulted suffix "a" and then `init` with the different suffix "b", the set of
generations holding the alias is not the singleton of the most recently
initialized generation — the second `init` finds the base name existing (as
the alias created by the first) and never swaps the alias. -/
theorem init_twice_alias_on_most_recent_cex :
    ¬ (aliasHolders (init (init ⟨[], []⟩ "idx" none "a") "idx" (some "b") "c") "idx"
        = [get_index_name "idx" (some "b")]) := by
  decide

/-- C1 (amended): for every base B, after `init` with the defaulted (non-empty
timestamp) suffix and then `init` with a different non-empty suffix, exactly
one concrete generation holds the alias B, and that generation is the one
created by the FIRST `init` call: the second call sees the base name existing
(as the alias) and therefore never calls `migrate`. -/
theorem init_twice_alias_on_first_init (B now S2 now2 : String)
    (h1 : now ≠ "") (h2 : S2 ≠ "") (h3 : S2 ≠ now) :
    aliasHolders (init (init ⟨[], []⟩ B none now) B (some S2) now2) B
      = [B ++ "--" ++ now] := by
  have hne1 : B ≠ B ++ "--" ++ now := (genName_ne_base B now).symm
  have hne2 : B ++ "--" ++ S2 ≠ B ++ "--" ++ now := fun h => h3 (genName_inj B S2 now h)
  have hs1 : init ⟨[], []⟩ B none now
      = ⟨[B ++ "--" ++ now], [(B, B ++ "--" ++ now)]⟩ := by
    simp [init, pyOrStr, get_index_name, h1, createIndex, existsName, hne1, migrate,
      get_active_index, get_all_indices, isPrefixOf_genName, List.insertionSort,
      List.orderedInsert, updateAliases, applyAliasAction]
  have hs2 : init ⟨[B ++ "--" ++ now], [(B, B ++ "--" ++ now)]⟩ B (some S2) now2
      = ⟨[B ++ "--" ++ now, B ++ "--" ++ S2], [(B, B ++ "--" ++ now)]⟩ := by
    simp [init, pyOrStr, get_index_name, h2, createIndex, existsName, hne2]
  rw [hs1, hs2]
  unfold aliasHolders get_all_indices
  have hfilter : ([B ++ "--" ++ now, B ++ "--" ++ S2] : List String).filter
      (fun n => (B ++ "--").data.isPrefixOf n.data) = [B ++ "--" ++ now, B ++ "--" ++ S2] := by
    simp [isPrefixOf_genName]
  rw [hfilter]
  have hperm := (List.perm_insertionSort strLeRel [B ++ "--" ++ now, B ++ "--" ++ S2]).filter
    (fun g => decide ((B, g) ∈ ([(B, B ++ "--" ++ now)] : List (String × String))))
  have hfl : ([B ++ "--" ++ now, B ++ "--" ++ S2] : List String).filter
      (fun g => decide ((B, g) ∈ ([(B, B ++ "--" ++ now)] : List (String × String))))
      = [B ++ "--" ++ now] := by
    simp [List.filter_cons, hne2]
  rw [hfl] at hperm
  exact List.perm_singleton.mp hperm

/-- C1 (witness): `init_twice_alias_on_first_init` at the concrete base "idx"
with first (defaulted) suffix "a" and second suffix "b". -/
theorem init_twice_alias_on_first_init_witness :
    ("a" : String) ≠ "" ∧ ("b" : String) ≠ "" ∧ ("b" : String) ≠ "a" ∧
    aliasHolders (init (init ⟨[], []⟩ "idx" none "a") "idx" (some "b") "c") "idx"
      = ["idx" ++ "--" ++ "a"] :=
  ⟨by decide, by decide, by decide,
   init_twice_alias_on_first_init "idx" "a" "b" "c" (by decide) (by decide) (by decide)⟩

end DjangoOpensearchDsl
